import Mathlib

/-!
Verification of the PGCite core (SPARQL query construction, response
projection, record constructors) against its specification.

The Rust source (src/main.rs) is shallowly embedded: panics (`unwrap`)
and `Result` errors are both modelled as `Option.none`; strings are
Lean `String`s; `serde_json::Value` is an inductive JSON value type;
the third-party `url` crate is modelled by a small URL record together
with a parser restricted to the URL forms this program exercises.
-/

set_option autoImplicit false

namespace PGCite

/-! ## Escaper (src/main.rs, `escape_sparql`)

The source replaces, left to right and non-overlapping, every match of
the single-character regex class consisting of double quote, single
quote and backslash by a backslash followed by the matched character.
Since every match is exactly one character, `replace_all` is a
per-character scan. -/

def backslash_char : Char := Char.ofNat 92

def double_quote_char : Char := Char.ofNat 34

def single_quote_char : Char := Char.ofNat 39

/-- The character class of the regex in `escape_sparql`. -/
def sparql_metachar (c : Char) : Bool :=
  c = double_quote_char || c = single_quote_char || c = backslash_char

/-- Left-to-right scan of `Regex::replace_all` with replacement
backslash-then-group, on the character list of the input. -/
def escape_sparql_chars : List Char → List Char
  | [] => []
  | c :: rest =>
    if sparql_metachar c then backslash_char :: c :: escape_sparql_chars rest
    else c :: escape_sparql_chars rest

/-- Embedding of `escape_sparql`. -/
def escape_sparql (s : String) : String :=
  String.mk (escape_sparql_chars s.data)

/-- Number of metacharacters in a character list. -/
def count_metachars (l : List Char) : Nat :=
  (l.filter (fun c => sparql_metachar c)).length

/-- Count, scanning left to right and non-overlapping, of escaped
occurrences: a backslash immediately followed by a metacharacter. -/
def count_escaped : List Char → Nat
  | [] => 0
  | [_] => 0
  | c :: d :: rest =>
    if c = backslash_char ∧ sparql_metachar d then count_escaped rest + 1
    else count_escaped (d :: rest)

/-- Decoder: removes, scanning left to right and non-overlapping, the
backslash of every escaped occurrence. -/
def unescape_chars : List Char → List Char
  | [] => []
  | [c] => [c]
  | c :: d :: rest =>
    if c = backslash_char ∧ sparql_metachar d then d :: unescape_chars rest
    else c :: unescape_chars (d :: rest)

theorem count_escaped_cons_not_backslash (c : Char) (l : List Char)
    (h : c ≠ backslash_char) : count_escaped (c :: l) = count_escaped l := by
  cases l with
  | nil => rfl
  | cons d rest => simp [count_escaped, h]

theorem unescape_chars_cons_not_backslash (c : Char) (l : List Char)
    (h : c ≠ backslash_char) : unescape_chars (c :: l) = c :: unescape_chars l := by
  cases l with
  | nil => rfl
  | cons d rest => simp [unescape_chars, h]

theorem metachar_of_not_escape_id (c : Char) (h : sparql_metachar c = false) :
    c ≠ backslash_char := by
  intro hc
  simp [sparql_metachar, hc] at h

/-- C2: every occurrence of a metacharacter is replaced by itself
prefixed with a backslash, scanning left to right, non-overlapping,
preserving everything else: the output decodes back to the input, the
output is the concatenation of the per-character escapings, and the
number of escaped occurrences in the output equals the number of
metacharacters in the input. -/
theorem escape_sparql_correct (s : String) :
    unescape_chars (escape_sparql s).data = s.data ∧
    count_escaped (escape_sparql s).data = count_metachars s.data ∧
    (escape_sparql s).data =
      (s.data.map (fun c =>
        if sparql_metachar c then [backslash_char, c] else [c])).flatten := by
  refine ⟨?_, ?_, ?_⟩
  · show unescape_chars (escape_sparql_chars s.data) = s.data
    induction s.data with
    | nil => rfl
    | cons c rest ih =>
      by_cases h : sparql_metachar c
      · simp [escape_sparql_chars, h, unescape_chars, ih]
      · simp only [escape_sparql_chars, h, if_neg, Bool.false_eq_true, if_false]
        rw [unescape_chars_cons_not_backslash c _
          (metachar_of_not_escape_id c (by simpa using h)), ih]
  · show count_escaped (escape_sparql_chars s.data) = count_metachars s.data
    induction s.data with
    | nil => rfl
    | cons c rest ih =>
      by_cases h : sparql_metachar c
      · simp [escape_sparql_chars, h, count_escaped, count_metachars,
          List.filter] at ih ⊢
        omega
      · simp only [escape_sparql_chars, h, Bool.false_eq_true, if_false]
        rw [count_escaped_cons_not_backslash c _
          (metachar_of_not_escape_id c (by simpa using h)), ih]
        simp [count_metachars, List.filter, h]
  · show escape_sparql_chars s.data = _
    induction s.data with
    | nil => rfl
    | cons c rest ih =>
      by_cases h : sparql_metachar c <;>
        simp [escape_sparql_chars, h, ih]

theorem escape_sparql_chars_id (l : List Char)
    (h : ∀ c ∈ l, sparql_metachar c = false) : escape_sparql_chars l = l := by
  induction l with
  | nil => rfl
  | cons c rest ih =>
    have hc := h c (List.mem_cons_self c rest)
    simp only [escape_sparql_chars, hc, Bool.false_eq_true, if_false,
      List.cons.injEq, true_and]
    exact ih (fun d hd => h d (List.mem_cons_of_mem c hd))

/-- C8: the Escaper is the identity on strings without metacharacters. -/
theorem escape_sparql_identity (s : String)
    (h : ∀ c ∈ s.data, sparql_metachar c = false) : escape_sparql s = s := by
  show String.mk (escape_sparql_chars s.data) = s
  rw [escape_sparql_chars_id s.data h]

/-- C8 witness: a concrete metacharacter-free string is unchanged. -/
theorem escape_sparql_identity_witness :
    escape_sparql "Douglas Adams" = "Douglas Adams" :=
  escape_sparql_identity "Douglas Adams" (by decide)

/-! ## Response Projector (src/main.rs, `get_values`)

`serde_json::Value` is embedded as an inductive JSON value; objects are
association lists. Each `unwrap` panic in the source is `none` here. -/

inductive Value where
  | null
  | bool (b : Bool)
  | num (n : Int)
  | str (s : String)
  | arr (elems : List Value)
  | obj (fields : List (String × Value))

/-- Embedding of `Value::as_object`. -/
def Value.as_object : Value → Option (List (String × Value))
  | .obj fields => some fields
  | _ => none

/-- Embedding of `Value::get` with a string index: lookup on objects, `None` otherwise. -/
def Value.get_key (v : Value) (k : String) : Option Value :=
  match v with
  | .obj fields => fields.lookup k
  | _ => none

/-- Embedding of `Value::as_str`. -/
def Value.as_str : Value → Option String
  | .str s => some s
  | _ => none

/-- The closure inside `get_values`:
`obj.as_object().unwrap().get(name).unwrap().get("value").unwrap().as_str().unwrap()`. -/
def get_value_at (row : Value) (name : String) : Option String :=
  (row.as_object).bind fun o =>
    (o.lookup name).bind fun v =>
      (v.get_key "value").bind Value.as_str

/-- Embedding of `get_values`: `names.map(...)` where any panic inside the
closure aborts the whole call. -/
def get_values (row : Value) : List String → Option (List String)
  | [] => some []
  | n :: rest =>
    match get_value_at row n, get_values row rest with
    | some v, some vs => some (v :: vs)
    | _, _ => none

theorem get_values_none_of_mem (row : Value) (names : List String) (n : String)
    (hmem : n ∈ names) (hfail : get_value_at row n = none) :
    get_values row names = none := by
  induction names with
  | nil => cases hmem
  | cons m rest ih =>
    rcases List.mem_cons.mp hmem with h | h
    · subst h
      simp [get_values, hfail]
    · rw [get_values, ih h]
      cases get_value_at row m <;> rfl

/-- C3 counterexample: the claim quantifies over every requested list of
variable names, including the empty one; for a non-object row and an empty
request the code succeeds with an empty projection instead of failing. -/
theorem get_values_empty_request_counterexample :
    ¬ (Value.str "x").as_object.isSome ∧ get_values (Value.str "x") [] = some [] :=
  ⟨by simp [Value.as_object], rfl⟩

/-- C3 (amended): whenever at least one variable is requested, projection
fails if a requested name is absent from the row, if the row is not a JSON
object, if the nested object under a requested name lacks a string under
`value`, or if the nested value is not an object at all. -/
theorem get_values_error_propagation :
    (∀ (fields : List (String × Value)) (names : List String) (n : String),
      n ∈ names → fields.lookup n = none →
      get_values (Value.obj fields) names = none) ∧
    (∀ (row : Value) (names : List String) (n : String),
      n ∈ names → row.as_object = none → get_values row names = none) ∧
    (∀ (fields : List (String × Value)) (names : List String) (n : String)
      (v : Value), n ∈ names → fields.lookup n = some v →
      v.get_key "value" = none → get_values (Value.obj fields) names = none) ∧
    (∀ (fields : List (String × Value)) (names : List String) (n : String)
      (v w : Value), n ∈ names → fields.lookup n = some v →
      v.get_key "value" = some w → w.as_str = none →
      get_values (Value.obj fields) names = none) := by
  refine ⟨?_, ?_, ?_, ?_⟩
  · intro fields names n hmem hlook
    exact get_values_none_of_mem _ _ n hmem (by
      simp [get_value_at, Value.as_object, hlook])
  · intro row names n hmem hobj
    exact get_values_none_of_mem _ _ n hmem (by simp [get_value_at, hobj])
  · intro fields names n v hmem hlook hval
    exact get_values_none_of_mem _ _ n hmem (by
      simp [get_value_at, Value.as_object, hlook, hval])
  · intro fields names n v w hmem hlook hval hstr
    exact get_values_none_of_mem _ _ n hmem (by
      simp [get_value_at, Value.as_object, hlook, hval, hstr])

/-- C3 witness: a row lacking key `c`, with `["c"]` requested, fails. -/
theorem get_values_error_propagation_witness :
    get_values (Value.obj [("a", Value.obj [("value", Value.str "1")])]) ["c"]
      = none :=
  get_values_error_propagation.1 [("a", Value.obj [("value", Value.str "1")])]
    ["c"] "c" (List.mem_singleton.mpr rfl) rfl

/-- C4: on a well-formed row with all requested names present, projection
succeeds with one string per requested name, in request order. -/
theorem get_values_projection (row : Value) (names : List String)
    (h : ∀ n ∈ names, (get_value_at row n).isSome) :
    ∃ out : List String, get_values row names = some out ∧
      out.length = names.length ∧
      ∀ (i : Nat) (hi : i < names.length) (ho : i < out.length),
        get_value_at row (names.get ⟨i, hi⟩) = some (out.get ⟨i, ho⟩) := by
  induction names with
  | nil => exact ⟨[], rfl, rfl, fun i hi => absurd hi (Nat.not_lt_zero i)⟩
  | cons m rest ih =>
    obtain ⟨v, hv⟩ := Option.isSome_iff_exists.mp
      (h m (List.mem_cons_self m rest))
    obtain ⟨out, hout, hlen, hidx⟩ :=
      ih (fun n hn => h n (List.mem_cons_of_mem m hn))
    refine ⟨v :: out, ?_, by simp [hlen], ?_⟩
    · simp [get_values, hv, hout]
    · intro i hi ho
      cases i with
      | zero => simpa using hv
      | succ j =>
        exact hidx j (Nat.lt_of_succ_lt_succ hi) (Nat.lt_of_succ_lt_succ ho)

/-- C4 witness: row with `a ↦ 1`, `b ↦ 2` and request `["b","a"]` projects
to `["2","1"]`. -/
theorem get_values_projection_witness :
    get_values
      (Value.obj [("a", Value.obj [("value", Value.str "1")]),
                  ("b", Value.obj [("value", Value.str "2")])]) ["b", "a"]
      = some ["2", "1"] ∧
    (∃ out : List String,
      get_values
        (Value.obj [("a", Value.obj [("value", Value.str "1")]),
                    ("b", Value.obj [("value", Value.str "2")])]) ["b", "a"]
        = some out ∧
      out.length = (["b", "a"] : List String).length ∧
      ∀ (i : Nat) (hi : i < (["b", "a"] : List String).length)
        (ho : i < out.length),
        get_value_at
          (Value.obj [("a", Value.obj [("value", Value.str "1")]),
                      ("b", Value.obj [("value", Value.str "2")])])
          ((["b", "a"] : List String).get ⟨i, hi⟩) = some (out.get ⟨i, ho⟩)) :=
  ⟨rfl, get_values_projection _ ["b", "a"] (by decide)⟩

/-! ## URLs (third-party `url` crate, as used by the source)

Modelled from the spec: the source delegates URL handling to the `url`
crate, which is not part of this repository. The model keeps exactly what
the repository uses: `Url::parse` (restricted here to `http`/`https`
hierarchical URLs and to opaque cannot-be-a-base schemes such as
`mailto:`) and `Url::path_segments`, which yields the `/`-separated path
segments of a hierarchical URL and nothing for a cannot-be-a-base URL. -/

structure Url where
  scheme : String
  host : String
  cannot_be_a_base : Bool
  segments : List String
deriving DecidableEq, Repr

/-- Model of `Url::path_segments`: `None` exactly for cannot-be-a-base URLs. -/
def Url.path_segments (u : Url) : Option (List String) :=
  if u.cannot_be_a_base then none else some u.segments

def slash_char : Char := Char.ofNat 47

def colon_char : Char := Char.ofNat 58

/-- Does the first list start with the second one? -/
def starts_with_chars : List Char → List Char → Bool
  | _, [] => true
  | [], _ :: _ => false
  | c :: rest, p :: ps => c = p && starts_with_chars rest ps

/-- Split a character list on a separator character; always non-empty. -/
def split_on_char (sep : Char) : List Char → List (List Char)
  | [] => [[]]
  | c :: rest =>
    if c = sep then [] :: split_on_char sep rest
    else
      match split_on_char sep rest with
      | [] => [[c]]
      | g :: gs => (c :: g) :: gs

/-- Parse the remainder of an `http`/`https` URL after `scheme://`. -/
def url_parse_hierarchical (scheme : String) (rest : List Char) : Option Url :=
  match split_on_char slash_char rest with
  | [] => none
  | host :: path_parts =>
    if host = [] then none
    else some ⟨scheme, String.mk host, false,
      if path_parts = [] then [""] else path_parts.map String.mk⟩

/-- Model of `Url::parse`, restricted to the URL forms this program exercises. -/
def Url.parse (s : String) : Option Url :=
  if starts_with_chars s.data ("https://").data then
    url_parse_hierarchical "https" (s.data.drop 8)
  else if starts_with_chars s.data ("http://").data then
    url_parse_hierarchical "http" (s.data.drop 7)
  else
    match split_on_char colon_char s.data with
    | scheme :: _ :: _ =>
      if scheme ≠ [] ∧ scheme.all Char.isAlpha then
        some ⟨String.mk scheme, "", true, []⟩
      else none
    | _ => none

/-- Embedding of `get_last_segment`:
`url.path_segments().and_then(|s| s.last()).unwrap()`, the panic being
`none`. -/
def get_last_segment (u : Url) : Option String :=
  (u.path_segments).bind List.getLast?

/-! ## Record constructors (src/main.rs, `Person::new`, `Field::new`) -/

structure Person where
  name : String
  description : String
  id : String
  id_url : Url
deriving DecidableEq, Repr

/-- Embedding of `Person::new`; the constructor receives an already parsed
`Url` and panics (here: `none`) when `get_last_segment` panics. -/
def Person.new (name description : String) (id : Url) : Option Person :=
  (get_last_segment id).map fun i =>
    { name := name, description := description, id := i, id_url := id }

structure Field where
  value : String
  label : String
  label_id : String
  label_id_url : Url
deriving DecidableEq, Repr

/-- Embedding of `Field::new`: parses the URL string first (`?` propagates
the parse error), then derives the last path segment. -/
def Field.new (label_id_url : String) (label value : String) : Option Field :=
  (Url.parse label_id_url).bind fun u =>
    (get_last_segment u).map fun i =>
      { value := value, label := label, label_id := i, label_id_url := u }

/-- C5: a `Person` is constructed from an already parsed URL; on success its
`id` is exactly the last path segment of `id_url` and the other fields are
stored verbatim; construction fails when the URL has no last path segment;
and the parse-then-construct pipeline used by the caller fails when URL
parsing fails. -/
theorem person_new_spec :
    (∀ (name description : String) (u : Url) (p : Person),
      Person.new name description u = some p →
      get_last_segment u = some p.id ∧ p.id_url = u ∧
      p.name = name ∧ p.description = description) ∧
    (∀ (name description : String) (u : Url),
      get_last_segment u = none → Person.new name description u = none) ∧
    (∀ (name description s : String),
      Url.parse s = none →
      (Url.parse s).bind (Person.new name description) = none) := by
  refine ⟨?_, ?_, ?_⟩
  · intro name description u p hp
    obtain ⟨i, hseg, hi⟩ := Option.map_eq_some'.mp hp
    subst hi
    exact ⟨hseg, rfl, rfl, rfl⟩
  · intro name description u hseg
    rw [Person.new, hseg]
    rfl
  · intro name description s hparse
    rw [hparse]
    rfl

/-- C5 witness: constructing a `Person` from the parsed Wikidata URL of
`Q42` stores `Q42` as the derived identifier. -/
theorem person_new_spec_witness :
    get_last_segment ⟨"https", "www.wikidata.org", false, ["entity", "Q42"]⟩
      = some (Person.mk "Douglas Adams" "English author" "Q42"
        ⟨"https", "www.wikidata.org", false, ["entity", "Q42"]⟩).id ∧
    (Person.mk "Douglas Adams" "English author" "Q42"
      ⟨"https", "www.wikidata.org", false, ["entity", "Q42"]⟩).id_url
      = ⟨"https", "www.wikidata.org", false, ["entity", "Q42"]⟩ ∧
    (Person.mk "Douglas Adams" "English author" "Q42"
      ⟨"https", "www.wikidata.org", false, ["entity", "Q42"]⟩).name
      = "Douglas Adams" ∧
    (Person.mk "Douglas Adams" "English author" "Q42"
      ⟨"https", "www.wikidata.org", false, ["entity", "Q42"]⟩).description
      = "English author" :=
  person_new_spec.1 "Douglas Adams" "English author"
    ⟨"https", "www.wikidata.org", false, ["entity", "Q42"]⟩ _ rfl

/-- C6: `Field::new` parses its URL string first and propagates a parse
failure; it fails when the parsed URL has no last path segment; and on
success `label_id` is exactly the last path segment of `label_id_url`,
with the other fields stored verbatim. -/
theorem field_new_spec :
    (∀ (s label value : String),
      Url.parse s = none → Field.new s label value = none) ∧
    (∀ (s label value : String) (u : Url),
      Url.parse s = some u → get_last_segment u = none →
      Field.new s label value = none) ∧
    (∀ (s label value : String) (f : Field),
      Field.new s label value = some f →
      ∃ u : Url, Url.parse s = some u ∧
        get_last_segment u = some f.label_id ∧ f.label_id_url = u ∧
        f.label = label ∧ f.value = value) := by
  refine ⟨?_, ?_, ?_⟩
  · intro s label value hparse
    rw [Field.new, hparse]
    rfl
  · intro s label value u hparse hseg
    rw [Field.new, hparse]
    show (get_last_segment u).map _ = none
    rw [hseg]
    rfl
  · intro s label value f hf
    rcases hparse : Url.parse s with _ | u
    · rw [Field.new, hparse] at hf
      cases hf
    · rw [Field.new, hparse] at hf
      have hf2 : Option.map
          (fun i => Field.mk value label i u) (get_last_segment u) = some f := hf
      obtain ⟨i, hseg, hi⟩ := Option.map_eq_some'.mp hf2
      subst hi
      exact ⟨u, rfl, hseg, rfl, rfl, rfl⟩

/-- C6 witness: `Field::new` on the direct-property URL of `P106` derives
`P106`. -/
theorem field_new_spec_witness :
    ∃ u : Url,
      Url.parse "https://www.wikidata.org/prop/direct/P106" = some u ∧
      get_last_segment u =
        some (Field.mk "novelist" "occupation" "P106"
          ⟨"https", "www.wikidata.org", false, ["prop", "direct", "P106"]⟩).label_id ∧
      (Field.mk "novelist" "occupation" "P106"
        ⟨"https", "www.wikidata.org", false, ["prop", "direct", "P106"]⟩).label_id_url
        = u ∧
      (Field.mk "novelist" "occupation" "P106"
        ⟨"https", "www.wikidata.org", false, ["prop", "direct", "P106"]⟩).label
        = "occupation" ∧
      (Field.mk "novelist" "occupation" "P106"
        ⟨"https", "www.wikidata.org", false, ["prop", "direct", "P106"]⟩).value
        = "novelist" :=
  field_new_spec.2.2 "https://www.wikidata.org/prop/direct/P106"
    "occupation" "novelist" _ (by decide)

/-- C7: identifier derivation on `https://example.org/entity/Q42` yields
`Q42`, and fails on a URL with no path segments. -/
theorem get_last_segment_spec :
    (Url.parse "https://example.org/entity/Q42").bind get_last_segment
      = some "Q42" ∧
    (∀ u : Url, u.path_segments = none → get_last_segment u = none) := by
  refine ⟨by decide, ?_⟩
  intro u hu
  rw [get_last_segment, hu]
  rfl

/-- C7 witness: a cannot-be-a-base URL (as produced by parsing a `mailto:`
URL) has no path segments, and derivation fails on it. -/
theorem get_last_segment_spec_witness :
    Url.parse "mailto:someone@example.org"
      = some ⟨"mailto", "", true, []⟩ ∧
    get_last_segment ⟨"mailto", "", true, []⟩ = none :=
  ⟨by decide, get_last_segment_spec.2 ⟨"mailto", "", true, []⟩ rfl⟩

/-! ## Query Builder (src/main.rs, `Q`, `get_author_info`)

The fetch-by-id query of `get_author_info` is a `format!` template: the
literal pieces below are its text verbatim (braces written `\x7b`/`\x7d`,
apostrophes `\x27`), with the two interpolation points `{id}` and
`{comment_marker}`. -/

/-- Embedding of `impl Display for Q`: writes `Q` followed by the wrapped
string. -/
def q_display (id : String) : String := "Q" ++ id

/-- The `comment_marker` binding of `get_author_info`. -/
def comment_marker (only_wikidata_entities : Bool) : String :=
  if only_wikidata_entities then "#" else ""

def query_select_head : String :=
  "\nSELECT DISTINCT\n  ?propID     # Ex. P734\n  ?propLabel  # Ex. family name\n  ?value      # Ex. Q351735\n  ?valueLabel # Ex. Adams\nWHERE \x7b\n  VALUES ?target \x7b\n    "

def query_body_mid : String :=
  "\n  \x7d\n\n  ?target ?propID ?value.\n\n  ?prop wikibase:directClaim ?propID.\n\n  # Filters results to only those with Wikidata entries\n  # Ex. Q84 but not douglasadams\n  "

def query_body_tail : String :=
  " FILTER(CONTAINS(STR(?value), \"/entity/Q\"))\n\n  # Fetches the label for every ?variable, the result of which is stored in ?variableLabel\n  SERVICE wikibase:label \x7b bd:serviceParam wikibase:language \"[AUTO_LANGUAGE],en\". \x7d\n\x7d\nORDER BY DESC(?propID) # Doesn\x27t actually sort correctly because props aren\x27t 0-padded"

/-- The query string rendered by `get_author_info`; the default of the
`only_wikidata_entities` parameter embeds `#[nade(true)]`. -/
def get_author_info_query (id : String)
    (only_wikidata_entities : Bool := true) : String :=
  query_select_head ++ "wd:" ++ q_display id ++ query_body_mid ++
    comment_marker only_wikidata_entities ++ query_body_tail

/-- Substring test used to observe the rendered query text. -/
def has_sub (pat : List Char) : List Char → Bool
  | [] => starts_with_chars [] pat
  | c :: rest => starts_with_chars (c :: rest) pat || has_sub pat rest

set_option maxRecDepth 40000 in
/-- C1 (code bug): with `only_wikidata_entities = true` the rendered query
contains the filter line only in commented-out form (`# FILTER(...)`),
while with `false` the `FILTER` clause is present uncommented: the
`comment_marker` branch is inverted with respect to the function's own
documentation. -/
theorem filter_toggle_inverted :
    comment_marker true = "#" ∧
    comment_marker false = "" ∧
    has_sub ("# FILTER").data (get_author_info_query "42" true).data = true ∧
    has_sub ("# FILTER").data (get_author_info_query "42" false).data = false ∧
    has_sub (" FILTER(CONTAINS(STR(?value), \"/entity/Q\"))").data
      (get_author_info_query "42" false).data = true := by
  refine ⟨rfl, rfl, by decide, by decide, by decide⟩

/-- C9: omitting `only_wikidata_entities` renders exactly the query that
passing `true` explicitly renders. -/
theorem get_author_info_default_flag (id : String) :
    get_author_info_query id = get_author_info_query id true := rfl

theorem append_data (a b : String) : (a ++ b).data = a.data ++ b.data := rfl

theorem string_eq_of_data : ∀ (a b : String), a.data = b.data → a = b
  | ⟨_⟩, ⟨_⟩, h => congrArg String.mk h

/-- C10: the query subject is the literal text `wd:Q` followed by the
caller's identifier string verbatim (the `Q` coming from the `Q`
wrapper's `Display`), with no escaping; in particular the wrapper turns
`Q42` into `QQ42`. -/
theorem query_embeds_id_verbatim :
    (∀ (s : String) (b : Bool), ∃ t u : String,
      get_author_info_query s b = t ++ ("wd:Q" ++ s) ++ u) ∧
    q_display "Q42" = "QQ42" := by
  refine ⟨?_, rfl⟩
  intro s b
  refine ⟨query_select_head,
    query_body_mid ++ (comment_marker b ++ query_body_tail), ?_⟩
  apply string_eq_of_data
  simp only [get_author_info_query, q_display, append_data, List.append_assoc,
    List.cons_append, List.nil_append]

end PGCite
